import Mathlib

/-!
Shallow embedding of the dynamic-ranking core of the referral/gamification
backend (FastAPI + SQLAlchemy source), and proofs about it.

Embedded modules:
* app/services/ranking_service.py : assign_default_rank, calculate_dynamic_rank,
  update_user_rank, update_all_ranks, get_user_rank_info
* app/services/share_service.py   : PLATFORM_POINTS, log_share_event
* app/services/leaderboard_service.py : get_leaderboard
* app/services/user_service.py    : create_user
* app/models/user.py, app/models/share.py : the data model

Modelling conventions:
* The database is a `DB` value holding the `users` and `share_events` tables as
  lists plus autoincrement counters; SQLAlchemy `.first()` becomes `List.find?`,
  in-place row mutation becomes `List.map` with an id test, `commit` is implicit
  (state passing).
* Timestamps and emails are `Nat` (only their equality/order matters).
* The SQL `ROW_NUMBER() OVER (ORDER BY total_points DESC, created_at ASC)`
  window function is rendered as the 1-based position in a list sorted by the
  same key (`List.insertionSort rankLE`, a stable sort; SQL leaves ties among
  equal keys unspecified, the claims below assume distinct `created_at`).
* Python truthiness (`x or y`, `if cached:`) is modelled explicitly
  (`pyOrRank`, `truthy`, emptiness tests).
* Exceptions raised to the caller (`HTTPException`) become `Except`;
  the diskcache backend is modelled as an oracle argument (`CacheGet`) since
  cache get/set failures are caught inside `get_leaderboard`.
* `invalidate_leaderboard_cache` only touches the external cache store and is
  a no-op on the database state, so it does not appear in the `DB` transitions.
* The float `percentile` field of `get_user_rank_info` is not modelled
  (floating point); no claim refers to it.
-/

/-- Platform enum from app/models/share.py (`PlatformEnum`). -/
inductive Platform where
  | facebook
  | twitter
  | linkedin
  | instagram
deriving DecidableEq, Repr

/-- Fixed per-platform point table from app/services/share_service.py
(`PLATFORM_POINTS`). -/
def PLATFORM_POINTS : Platform → Nat
  | Platform.twitter => 1
  | Platform.instagram => 2
  | Platform.linkedin => 5
  | Platform.facebook => 3

/-- A row of the `users` table (app/models/user.py). `default_rank` and
`current_rank` are nullable columns, hence `Option Nat`. -/
structure User where
  id : Nat
  name : String
  email : Nat
  password_hash : String
  total_points : Nat
  shares_count : Nat
  default_rank : Option Nat
  current_rank : Option Nat
  is_active : Bool
  is_admin : Bool
  created_at : Nat
deriving DecidableEq, Repr

/-- A row of the `share_events` table (app/models/share.py). -/
structure ShareEvent where
  id : Nat
  user_id : Nat
  platform : Platform
  points_earned : Nat
  created_at : Nat
deriving DecidableEq, Repr

/-- The database state: both tables plus the autoincrement id counters. -/
structure DB where
  users : List User
  shares : List ShareEvent
  nextUserId : Nat
  nextShareId : Nat
deriving DecidableEq, Repr

/-- The empty database. -/
def emptyDB : DB := { users := [], shares := [], nextUserId := 0, nextShareId := 0 }

/-- The rows of `SELECT * FROM users WHERE is_admin = FALSE` (every ranking
query filters on this). -/
def nonAdmins (db : DB) : List User :=
  db.users.filter (fun u => decide (u.is_admin = false))

/-- `db.query(User).filter(User.is_admin == False).count()`. -/
def countNonAdmins (db : DB) : Nat :=
  (nonAdmins db).length

/-- Python `x or y` for a nullable integer column `x`: `None` and `0` are
falsy, any other value wins. -/
def pyOrRank (x : Option Nat) (y : Nat) : Nat :=
  if x.getD 0 ≠ 0 then x.getD 0 else y

/-- Python truthiness of a nullable integer column: `None` and `0` are falsy. -/
def truthy (x : Option Nat) : Bool :=
  x.getD 0 ≠ 0

/-- The `ORDER BY total_points DESC, created_at ASC` ordering used by every
ranking query: `a` sorts no later than `b`. -/
def rankLE (a b : User) : Prop :=
  b.total_points < a.total_points ∨
    (a.total_points = b.total_points ∧ a.created_at ≤ b.created_at)

instance : DecidableRel rankLE := fun a b =>
  decidable_of_iff
    (b.total_points < a.total_points ∨
      (a.total_points = b.total_points ∧ a.created_at ≤ b.created_at))
    Iff.rfl

instance : IsTotal User rankLE where
  total a b := by
    rcases Nat.lt_trichotomy a.total_points b.total_points with h | h | h
    · exact Or.inr (Or.inl h)
    · rcases Nat.le_total a.created_at b.created_at with hc | hc
      · exact Or.inl (Or.inr ⟨h, hc⟩)
      · exact Or.inr (Or.inr ⟨h.symm, hc⟩)
    · exact Or.inl (Or.inl h)

instance : IsTrans User rankLE where
  trans a b c hab hbc := by
    rcases hab with h1 | ⟨h1, h1c⟩
    · rcases hbc with h2 | ⟨h2, _⟩
      · exact Or.inl (h2.trans h1)
      · exact Or.inl (h2 ▸ h1)
    · rcases hbc with h2 | ⟨h2, h2c⟩
      · exact Or.inl (h1 ▸ h2)
      · exact Or.inr ⟨h1.trans h2, h1c.trans h2c⟩

/-- `v` sorts strictly before `u` under (points DESC, created_at ASC): the
"outranks" relation of the spec (strictly more points, or equal points and
strictly earlier registration). -/
def ltUser (v u : User) : Prop :=
  u.total_points < v.total_points ∨
    (v.total_points = u.total_points ∧ v.created_at < u.created_at)

instance : DecidableRel ltUser := fun v u =>
  decidable_of_iff
    (u.total_points < v.total_points ∨
      (v.total_points = u.total_points ∧ v.created_at < u.created_at))
    Iff.rfl

/-- The count appearing in the spec sentence for `calculate_dynamic_rank`:
non-admin users who either have strictly more points than `u`, or equal points
and a strictly earlier `created_at`. -/
def competitorsAhead (db : DB) (u : User) : Nat :=
  ((nonAdmins db).filter (fun v => decide (ltUser v u))).length

/-- `ROW_NUMBER()` bookkeeping: pair each row of an (already sorted) list with
its row number, starting at `n`. -/
def rowNumbers (n : Nat) : List User → List (Nat × Nat)
  | [] => []
  | u :: rest => (u.id, n) :: rowNumbers (n + 1) rest

/-- The raw-SQL ranking subquery of `calculate_dynamic_rank`
(ranking_service.py lines 87-100): `ROW_NUMBER() OVER (ORDER BY total_points
DESC, created_at ASC)` over all non-admin users, then `WHERE id = :user_id`
with `.first()`. -/
def rowNumberRank (db : DB) (user_id : Nat) : Option Nat :=
  ((rowNumbers 1 (List.insertionSort rankLE (nonAdmins db))).find?
    (fun p => p.1 = user_id)).map (fun p => p.2)

/-- `assign_default_rank` (ranking_service.py lines 24-57): the new user gets
default (and initial current) rank equal to the count of non-admin users; if
the user row is missing the database is untouched and the computed
`total_users` is returned. Returns the new database and the returned rank. -/
def assign_default_rank (db : DB) (user_id : Nat) : DB × Nat :=
  let total_users := countNonAdmins db
  let default_rank := total_users
  match db.users.find? (fun u => u.id = user_id) with
  | some _ =>
    ({ db with users := db.users.map (fun u =>
        if u.id = user_id then
          { u with default_rank := some default_rank,
                   current_rank := some default_rank }
        else u) },
     default_rank)
  | none => (db, total_users)

/-- `calculate_dynamic_rank` (ranking_service.py lines 59-109): pure
computation. Missing user gives 1; zero points gives `default_rank or 1`;
otherwise the SQL window-function rank, falling back to `default_rank or 1`
if the subquery returns no row. -/
def calculate_dynamic_rank (db : DB) (user_id : Nat) : Nat :=
  match db.users.find? (fun u => u.id = user_id) with
  | none => 1
  | some user =>
    if user.total_points = 0 then
      pyOrRank user.default_rank 1
    else
      match rowNumberRank db user_id with
      | some r => r
      | none => pyOrRank user.default_rank 1

/-- `update_user_rank` (ranking_service.py lines 111-144): persist
`calculate_dynamic_rank` into `current_rank`; returns the new database and the
new rank (returned even when the user row is missing). -/
def update_user_rank (db : DB) (user_id : Nat) : DB × Nat :=
  let new_rank := calculate_dynamic_rank db user_id
  match db.users.find? (fun u => u.id = user_id) with
  | some _ =>
    ({ db with users := db.users.map (fun u =>
        if u.id = user_id then { u with current_rank := some new_rank } else u) },
     new_rank)
  | none => (db, new_rank)

/-- `update_all_ranks` (ranking_service.py lines 146-177): enumerate all
non-admin users ordered by (points DESC, created_at ASC) with a 1-based rank
counter; zero-point users get `default_rank or rank`, the rest get their
position. The Python loop mutates each fetched row in place; since `id` is the
primary key each non-admin row occurs exactly once in the enumeration, which
the per-row position lookup below renders. Admin rows are not in the query and
stay untouched.

`bulkRankUpdate` is the per-row update: look the id of the row up in the
ranked enumeration; zero-point users get `default_rank or rank`, the others
their position. -/
def bulkRankUpdate (ranked : List (Nat × Nat)) (u : User) : User :=
  if u.is_admin then u
  else
    match (ranked.find? (fun p => p.1 = u.id)).map (fun p => p.2) with
    | some rank =>
      let r := if u.total_points = 0 then pyOrRank u.default_rank rank else rank
      { u with current_rank := some r }
    | none => u

def update_all_ranks (db : DB) : DB :=
  let ranked := rowNumbers 1 (List.insertionSort rankLE (nonAdmins db))
  { db with users := db.users.map (bulkRankUpdate ranked) }

/-- Rank info reported by `get_user_rank_info` (ranking_service.py lines
179-227), minus the floating-point `percentile` field. -/
structure RankInfo where
  user_id : Nat
  name : String
  total_points : Nat
  default_rank : Option Nat
  current_rank : Option Nat
  rank_improvement : Int
  points_to_next_rank : Int
  total_users : Nat
deriving DecidableEq, Repr

/-- Guard of the conditional expression inside the next-rank filter of
`get_user_rank_info` (ranking_service.py line 206):
`user.current_rank and user.current_rank > 1` (Python truthiness: `None` and
`0` are falsy). The conditional expression binds below `==`, so when this
guard is false the literal int `0` — not a comparison — is passed to
`filter()`. -/
def nextRankGuard (user : User) : Bool :=
  truthy user.current_rank && decide (1 < user.current_rank.getD 0)

/-- The next-rank query of `get_user_rank_info` on the path where
`nextRankGuard` holds: the first user row with `is_admin == False` and
`current_rank == user.current_rank - 1` (ranking_service.py lines 204-207). -/
def nextRankUser (db : DB) (user : User) : Option User :=
  db.users.find? (fun v =>
    decide (v.is_admin = false ∧ v.current_rank = some (user.current_rank.getD 0 - 1)))

/-- `points_to_next_rank` on the `nextRankGuard` path
(ranking_service.py lines 209-211): the clamped gap
`max(0, next.total_points - user.total_points + 1)` when the next-rank row
exists, else 0. (The guard of line 210 repeats `user.current_rank and
user.current_rank > 1`, which already holds on this path.) -/
def pointsToNextRank (db : DB) (user : User) : Int :=
  match nextRankUser db user with
  | some nru => max 0 ((nru.total_points : Int) - (user.total_points : Int) + 1)
  | none => 0

/-- `rank_improvement = default_rank - current_rank` when both columns are
truthy, else 0 (ranking_service.py line 219). -/
def rankImprovement (user : User) : Int :=
  if truthy user.default_rank ∧ truthy user.current_rank then
    (user.default_rank.getD 0 : Int) - (user.current_rank.getD 0 : Int)
  else 0

/-- `get_user_rank_info` (ranking_service.py lines 179-227). `none` is the
error dict, returned in two cases: the user row is missing
("User not found"), or `nextRankGuard` fails — when `current_rank` is NULL,
0 or 1, the conditional expression of line 206 evaluates to the literal int
`0`, which is passed to `filter()` as a criterion; SQLAlchemy rejects a
plain int with `ArgumentError` at query construction, the surrounding
`except Exception` catches it and the function returns the error dict. Only
users with `current_rank > 1` reach the rank-info dict. -/
def get_user_rank_info (db : DB) (user_id : Nat) : Option RankInfo :=
  match db.users.find? (fun u => u.id = user_id) with
  | none => none
  | some user =>
    if nextRankGuard user then
      some { user_id := user.id, name := user.name,
             total_points := user.total_points,
             default_rank := user.default_rank,
             current_rank := user.current_rank,
             rank_improvement := rankImprovement user,
             points_to_next_rank := pointsToNextRank db user,
             total_users := countNonAdmins db }
    else none

/-- The tuple returned by `log_share_event`: (share event or None, the user
row after refresh, points awarded), together with the database it left behind. -/
structure ShareOutcome where
  db : DB
  event : Option ShareEvent
  user : User
  points : Nat
deriving DecidableEq, Repr

/-- The `ShareEvent` row built by `log_share_event` for a novel share:
platform points, current timestamp. -/
def newShare (db : DB) (user_id : Nat) (platform : Platform) (now : Nat) : ShareEvent :=
  { id := db.nextShareId, user_id := user_id, platform := platform,
    points_earned := PLATFORM_POINTS platform, created_at := now }

/-- The committed state of `log_share_event` just before the rank update:
the share row appended and the user row incremented by the platform points
and one share (share_service.py lines 33-48). -/
def shareInsert (db : DB) (user_id : Nat) (platform : Platform) (now : Nat) : DB :=
  { db with
    users := db.users.map (fun u =>
      if u.id = user_id then
        { u with total_points := u.total_points + PLATFORM_POINTS platform,
                 shares_count := u.shares_count + 1 }
      else u),
    shares := db.shares ++ [newShare db user_id platform now],
    nextShareId := db.nextShareId + 1 }

/-- `log_share_event` (share_service.py lines 15-61), the `record_share`
entry point. Missing user raises HTTP 404 (`Except.error`); an existing
(user, platform) share event is the duplicate no-op returning
`(None, user, 0)`; otherwise the event is inserted and the user row
incremented (`shareInsert`), `update_user_rank` is run, and the refreshed
user row is returned with the platform points. -/
def log_share_event (db : DB) (user_id : Nat) (platform : Platform) (now : Nat) :
    Except String ShareOutcome :=
  match db.users.find? (fun u => u.id = user_id) with
  | none => Except.error "User not found"
  | some user =>
    match db.shares.find?
        (fun s => decide (s.user_id = user_id ∧ s.platform = platform)) with
    | some _ => Except.ok { db := db, event := none, user := user, points := 0 }
    | none =>
      match (update_user_rank (shareInsert db user_id platform now) user_id).1.users.find?
          (fun u => u.id = user_id) with
      | some user2 =>
        Except.ok { db := (update_user_rank (shareInsert db user_id platform now) user_id).1,
                    event := some (newShare db user_id platform now),
                    user := user2, points := PLATFORM_POINTS platform }
      | none =>
        Except.ok { db := (update_user_rank (shareInsert db user_id platform now) user_id).1,
                    event := some (newShare db user_id platform now),
                    user := user, points := PLATFORM_POINTS platform }

/-- Input of `create_user` (the `UserCreate` schema fields it reads). -/
structure UserCreate where
  name : String
  email : Nat
  password : String
deriving DecidableEq, Repr

/-- The `User(...)` row inserted by `create_user`: zero points, null ranks,
the autoincrement id. -/
def newRegistrant (db : DB) (user_in : UserCreate) (is_admin : Bool) (now : Nat) : User :=
  { id := db.nextUserId, name := user_in.name, email := user_in.email,
    password_hash := user_in.password, total_points := 0, shares_count := 0,
    default_rank := none, current_rank := none,
    is_active := true, is_admin := is_admin, created_at := now }

/-- The store after the `db.add(user); db.commit()` step of `create_user`:
the new row appended, autoincrement advanced. -/
def insertRegistrant (db : DB) (user_in : UserCreate) (is_admin : Bool) (now : Nat) : DB :=
  { db with users := db.users ++ [newRegistrant db user_in is_admin now],
            nextUserId := db.nextUserId + 1 }

/-- `create_user` (user_service.py lines 23-46): reject a duplicate email,
insert the user row (`newRegistrant`), then for non-admin users run
`assign_default_rank`. Returns the new database and the id of the new user. -/
def create_user (db : DB) (user_in : UserCreate) (is_admin : Bool) (now : Nat) :
    Except String (DB × Nat) :=
  match db.users.find? (fun u => u.email = user_in.email) with
  | some _ => Except.error "Email already registered"
  | none =>
    if is_admin then
      Except.ok (insertRegistrant db user_in is_admin now, db.nextUserId)
    else
      Except.ok
        ((assign_default_rank (insertRegistrant db user_in is_admin now)
            db.nextUserId).1,
         db.nextUserId)

/-- Sequential registrations: run `create_user` (non-admin) once per input,
threading the database. -/
def create_users_seq (db : DB) : List (UserCreate × Nat) → Except String DB
  | [] => Except.ok db
  | (user_in, now) :: rest =>
    match create_user db user_in false now with
    | Except.error e => Except.error e
    | Except.ok (db1, _) => create_users_seq db1 rest

/-- A leaderboard row as built by `get_leaderboard`
(leaderboard_service.py lines 26-47); the constant `badge := None` field is
omitted. -/
structure LBRow where
  rank : Nat
  user_id : Nat
  name : String
  points : Nat
  shares_count : Nat
  default_rank : Option Nat
  rank_improvement : Int
deriving DecidableEq, Repr

/-- One leaderboard row: `actual_rank = idx + 1 + (page-1)*limit`;
`rank_improvement` is `default_rank - current_rank` when both are truthy,
`default_rank - actual_rank` when only `default_rank` is, else 0. -/
def lbRow (actual_rank : Nat) (u : User) : LBRow :=
  let rank_improvement : Int :=
    if truthy u.default_rank ∧ truthy u.current_rank then
      (u.default_rank.getD 0 : Int) - (u.current_rank.getD 0 : Int)
    else if truthy u.default_rank then
      (u.default_rank.getD 0 : Int) - (actual_rank : Int)
    else 0
  { rank := actual_rank, user_id := u.id, name := u.name,
    points := u.total_points, shares_count := u.shares_count,
    default_rank := u.default_rank, rank_improvement := rank_improvement }

/-- Rows of a leaderboard page, with absolute ranks counting up from `base`. -/
def lbRows (base : Nat) : List User → List LBRow
  | [] => []
  | u :: rest => lbRow base u :: lbRows (base + 1) rest

/-- The live (cache-miss) computation of `get_leaderboard`: non-admin users
ordered by (points DESC, created_at ASC), offset `(page-1)*limit`, first
`limit` rows. -/
def computeLeaderboard (db : DB) (page limit : Nat) : List LBRow :=
  lbRows ((page - 1) * limit + 1)
    (((List.insertionSort rankLE (nonAdmins db)).drop ((page - 1) * limit)).take limit)

/-- Outcome of the `get_leaderboard_cache` call as observed inside
`get_leaderboard`: a cached value, a miss (`None`), or an exception (caught by
the surrounding `try`). The cache-set step is also wrapped in `try`, its
failure is logged and the already-built list is returned, so it does not
appear in the value. -/
inductive CacheGet where
  | hit (rows : List LBRow)
  | miss
  | raised
deriving DecidableEq, Repr

/-- `get_leaderboard` (leaderboard_service.py lines 7-52): return the cached
rows when the cache yields a truthy (non-empty) value, otherwise compute live.
A cache exception is caught and falls through to the live computation. -/
def get_leaderboard (cg : CacheGet) (db : DB) (page limit : Nat) : List LBRow :=
  match cg with
  | CacheGet.hit rows =>
    if rows.isEmpty then computeLeaderboard db page limit else rows
  | CacheGet.miss => computeLeaderboard db page limit
  | CacheGet.raised => computeLeaderboard db page limit

/-- Rewrite every user's `is_active` flag by a function of the user id;
used to state that the ranking computations never read `is_active`. -/
def setActive (f : Nat → Bool) (u : User) : User :=
  { u with is_active := f u.id }

/-- Apply `setActive` across the whole users table. -/
def setActives (f : Nat → Bool) (db : DB) : DB :=
  { db with users := db.users.map (setActive f) }

/-- Shorthand for a concrete non-admin user row in the example databases. -/
def mkUser (id pts : Nat) (dr cr : Option Nat) (ca : Nat) : User :=
  { id := id, name := "u", email := id, password_hash := "h",
    total_points := pts, shares_count := 0, default_rank := dr,
    current_rank := cr, is_active := true, is_admin := false, created_at := ca }

/-- Two registered users, the second of which has earned a point while the
first still has zero points and so kept its default rank 1. This state is
reached by two registrations followed by one share. -/
def dbTwo : DB :=
  { users := [mkUser 0 0 (some 1) (some 1) 0, mkUser 1 1 (some 2) (some 2) 1],
    shares := [{ id := 0, user_id := 1, platform := Platform.twitter,
                 points_earned := 1, created_at := 5 }],
    nextUserId := 2, nextShareId := 1 }

/-- One user who has already shared on twitter. -/
def dbShared : DB :=
  { users := [mkUser 1 1 (some 1) (some 1) 0],
    shares := [{ id := 0, user_id := 1, platform := Platform.twitter,
                 points_earned := 1, created_at := 5 }],
    nextUserId := 2, nextShareId := 1 }

/-- A zero-point user holding current rank 1 (via the default-rank rule)
above a 3-point user holding current rank 2: the state of the spec's own §8
scenario, restricted to two users. -/
def dbGap : DB :=
  { users := [mkUser 1 0 (some 1) (some 1) 0, mkUser 2 3 (some 2) (some 2) 1],
    shares := [{ id := 0, user_id := 2, platform := Platform.facebook,
                 points_earned := 3, created_at := 5 }],
    nextUserId := 3, nextShareId := 1 }

/-- Two fresh users with zero points. -/
def dbFresh : DB :=
  { users := [mkUser 0 0 (some 1) (some 1) 0, mkUser 1 0 (some 2) (some 2) 1],
    shares := [], nextUserId := 2, nextShareId := 0 }

/-- Comparison on nullable ranks: true only when both are present and the
first is strictly smaller. -/
def optLt (x y : Option Nat) : Bool :=
  match x, y with
  | some i, some j => decide (i < j)
  | _, _ => false

/-- The total-order property of claim C2 exactly as stated: after
`update_all_ranks`, any non-admin user with strictly more points has a
strictly smaller `current_rank`, and among equal-point non-admin users the
earlier-registered one has the strictly smaller `current_rank`. -/
def totalOrderAfterBulk (db : DB) : Prop :=
  ∀ a ∈ (update_all_ranks db).users, ∀ b ∈ (update_all_ranks db).users,
    a.is_admin = false → b.is_admin = false →
    (b.total_points < a.total_points → optLt a.current_rank b.current_rank = true) ∧
    (a.total_points = b.total_points → a.created_at < b.created_at →
      optLt a.current_rank b.current_rank = true)

/-- Two users who both hold positive points (3 and 1), already carrying the
`current_rank` values that `update_all_ranks` assigns. -/
def dbTwoPos : DB :=
  { users := [mkUser 0 3 (some 1) (some 1) 0, mkUser 1 1 (some 2) (some 2) 1],
    shares := [{ id := 0, user_id := 0, platform := Platform.facebook,
                 points_earned := 3, created_at := 5 },
               { id := 1, user_id := 1, platform := Platform.twitter,
                 points_earned := 1, created_at := 6 }],
    nextUserId := 2, nextShareId := 2 }

/-- The points awarded by two consecutive `log_share_event` calls for the
same user and platform (`none` if either call raises). -/
def pointsOfCalls (db : DB) (user_id : Nat) (platform : Platform) : Option (Nat × Nat) :=
  match log_share_event db user_id platform 10 with
  | Except.error _ => none
  | Except.ok o1 =>
    match log_share_event o1.db user_id platform 11 with
    | Except.error _ => none
    | Except.ok o2 => some (o1.points, o2.points)

/-- The property of claim C3 at one (user, platform) input, as stated: two
consecutive calls award positive points exactly once. -/
def awardsExactlyOnce (db : DB) (user_id : Nat) (platform : Platform) : Bool :=
  match pointsOfCalls db user_id platform with
  | some (p1, p2) =>
    (decide (0 < p1) && decide (p2 = 0)) || (decide (p1 = 0) && decide (0 < p2))
  | none => false

/-- The zero-point invariant of claim C4: every non-admin user with zero
points has `current_rank = default_rank` (as nullable columns). -/
def ZeroPointInv (db : DB) : Prop :=
  ∀ u ∈ db.users, u.is_admin = false → u.total_points = 0 →
    u.current_rank = u.default_rank

/-- Well-formedness produced by the registration flow: every non-admin user
carries a positive stored `default_rank`. -/
def RanksWF (db : DB) : Prop :=
  ∀ u ∈ db.users, u.is_admin = false → 0 < u.default_rank.getD 0

/-- Invariant of the sequential registration flow of claim C5, after the
users with the given email list have registered (in order) into an initially
empty store: ids are the positions, everyone is non-admin, and the user at
position j carries default and current rank j+1. -/
def SeqInv (db : DB) (emails : List Nat) : Prop :=
  db.nextUserId = emails.length ∧
  db.users.length = emails.length ∧
  ∀ j (h : j < db.users.length),
    (db.users[j]).id = j ∧
    (db.users[j]).is_admin = false ∧
    (db.users[j]).default_rank = some (j + 1) ∧
    (db.users[j]).current_rank = some (j + 1) ∧
    (db.users[j]).email ∈ emails

/-! ### Helper lemmas -/

theorem mem_id_eq {l : List User} (hids : (l.map (fun u => u.id)).Nodup)
    {u v : User} (hu : u ∈ l) (hv : v ∈ l) (h : u.id = v.id) : u = v := by
  induction l with
  | nil => cases hu
  | cons w t ih =>
    rw [List.map_cons, List.nodup_cons] at hids
    by_cases huw : u = w
    · by_cases hvw : v = w
      · rw [huw, hvw]
      · have hvt : v ∈ t := (List.mem_cons.mp hv).resolve_left hvw
        have hm : v.id ∈ t.map (fun x : User => x.id) := List.mem_map_of_mem _ hvt
        rw [← h, huw] at hm
        exact absurd hm hids.1
    · have hut : u ∈ t := (List.mem_cons.mp hu).resolve_left huw
      by_cases hvw : v = w
      · have hm : u.id ∈ t.map (fun x : User => x.id) := List.mem_map_of_mem _ hut
        rw [h, hvw] at hm
        exact absurd hm hids.1
      · have hvt : v ∈ t := (List.mem_cons.mp hv).resolve_left hvw
        exact ih hids.2 hut hvt

theorem find?_id_of_mem {l : List User} (hids : (l.map (fun u => u.id)).Nodup)
    {u : User} (hu : u ∈ l) :
    l.find? (fun v => v.id = u.id) = some u := by
  induction l with
  | nil => cases hu
  | cons w t ih =>
    by_cases hw : w.id = u.id
    · have hwu : w = u := mem_id_eq hids (List.mem_cons_self w t) hu hw
      rw [List.find?_cons_of_pos _ (by simp [hw]), hwu]
    · have hut : u ∈ t := by
        rcases List.mem_cons.mp hu with rfl | hut
        · exact absurd rfl hw
        · exact hut
      rw [List.map_cons, List.nodup_cons] at hids
      rw [List.find?_cons_of_neg _ (by simp [hw])]
      exact ih hids.2 hut

theorem ltUser_irrefl (u : User) : ¬ ltUser u u := by
  intro h
  rcases h with h | ⟨_, h⟩ <;> exact absurd h (lt_irrefl _)

theorem ltUser_trans {a b c : User} (hab : ltUser a b) (hbc : ltUser b c) :
    ltUser a c := by
  rcases hab with h1 | ⟨h1, h1c⟩
  · rcases hbc with h2 | ⟨h2, _⟩
    · exact Or.inl (h2.trans h1)
    · exact Or.inl (by rw [← h2]; exact h1)
  · rcases hbc with h2 | ⟨h2, h2c⟩
    · exact Or.inl (by rw [h1]; exact h2)
    · exact Or.inr ⟨h1.trans h2, h1c.trans h2c⟩

theorem not_ltUser_of_rankLE {u w : User} (h : rankLE u w) : ¬ ltUser w u := by
  intro hlt
  rcases h with h | ⟨h, hc⟩
  · rcases hlt with h2 | ⟨h2, _⟩
    · exact absurd (h.trans h2) (lt_irrefl _)
    · exact absurd h (h2 ▸ lt_irrefl _)
  · rcases hlt with h2 | ⟨_, h2c⟩
    · exact absurd h2 (h ▸ lt_irrefl _)
    · exact absurd (lt_of_le_of_lt hc h2c) (lt_irrefl _)

theorem ltUser_of_rankLE_ne {v u : User} (h : rankLE v u)
    (hne : v.created_at ≠ u.created_at) : ltUser v u := by
  rcases h with h | ⟨h, hc⟩
  · exact Or.inl h
  · exact Or.inr ⟨h, lt_of_le_of_ne hc hne⟩

theorem countP_lt_countP {α : Type} {p q : α → Bool} {l : List α} {a : α}
    (ha : a ∈ l) (hpq : ∀ x ∈ l, p x = true → q x = true)
    (hq : q a = true) (hp : p a = false) : l.countP p < l.countP q := by
  induction l with
  | nil => cases ha
  | cons x t ih =>
    rw [List.countP_cons, List.countP_cons]
    rcases List.mem_cons.mp ha with rfl | hat
    · rw [hp, hq]
      have hmono : t.countP p ≤ t.countP q :=
        List.countP_mono_left (fun x hx => hpq x (List.mem_cons_of_mem _ hx))
      have e0 : (if (false : Bool) = true then 1 else 0) = 0 := rfl
      have e1 : (if (true : Bool) = true then 1 else 0) = 1 := rfl
      rw [e0, e1]
      omega
    · have hih := ih hat (fun x hx => hpq x (List.mem_cons_of_mem _ hx))
      have hx : (if p x = true then 1 else 0) ≤ (if q x = true then 1 else 0) := by
        by_cases h : p x = true
        · rw [if_pos h, if_pos (hpq x (List.mem_cons_self x t) h)]
        · rw [if_neg h]
          exact Nat.zero_le _
      omega

theorem rowNumbers_find (u : User) :
    ∀ (s : List User) (n : Nat), List.Sorted rankLE s →
    s.Pairwise (fun a b => a.created_at ≠ b.created_at) →
    (s.map (fun v => v.id)).Nodup → u ∈ s →
    (rowNumbers n s).find? (fun p => p.1 = u.id) =
      some (u.id, n + s.countP (fun v => decide (ltUser v u))) := by
  intro s
  induction s with
  | nil => intro n _ _ _ hu; cases hu
  | cons v t ih =>
    intro n hs hca hids hu
    rw [List.sorted_cons] at hs
    rw [List.pairwise_cons] at hca
    rw [List.map_cons, List.nodup_cons] at hids
    by_cases hv : v.id = u.id
    · have hvu : v = u := by
        by_cases huv : u = v
        · exact huv.symm
        · have hut : u ∈ t := (List.mem_cons.mp hu).resolve_left huv
          have hm : u.id ∈ t.map (fun x : User => x.id) := List.mem_map_of_mem _ hut
          rw [← hv] at hm
          exact absurd hm hids.1
      have hc : (v :: t).countP (fun w => decide (ltUser w u)) = 0 := by
        rw [List.countP_eq_zero]
        intro w hw
        simp only [decide_eq_true_eq]
        rcases List.mem_cons.mp hw with rfl | hwt
        · rw [hvu]
          exact ltUser_irrefl u
        · have hr : rankLE u w := by rw [← hvu]; exact hs.1 w hwt
          exact not_ltUser_of_rankLE hr
      rw [hc, rowNumbers, List.find?_cons_of_pos _ (by simp [hv])]
      simp [hv]
    · have hut : u ∈ t := by
        rcases List.mem_cons.mp hu with rfl | hut
        · exact absurd rfl hv
        · exact hut
      have hlt : ltUser v u :=
        ltUser_of_rankLE_ne (hs.1 u hut) (hca.1 u hut)
      rw [rowNumbers, List.find?_cons_of_neg _ (by simp [hv])]
      rw [ih (n + 1) hs.2 hca.2 hids.2 hut]
      rw [List.countP_cons]
      simp only [decide_eq_true_eq, hlt, if_pos, Option.some.injEq, Prod.mk.injEq,
        true_and]
      omega

theorem rank_lookup (db : DB) (u : User)
    (hids : (db.users.map (fun v => v.id)).Nodup)
    (hca : (nonAdmins db).Pairwise (fun a b => a.created_at ≠ b.created_at))
    (hu : u ∈ db.users) (hna : u.is_admin = false) :
    (rowNumbers 1 (List.insertionSort rankLE (nonAdmins db))).find?
        (fun p => p.1 = u.id) =
      some (u.id, 1 + competitorsAhead db u) := by
  have hperm : (List.insertionSort rankLE (nonAdmins db)).Perm (nonAdmins db) :=
    List.perm_insertionSort rankLE (nonAdmins db)
  have hsorted : List.Sorted rankLE (List.insertionSort rankLE (nonAdmins db)) :=
    List.sorted_insertionSort rankLE (nonAdmins db)
  have hna_ids : ((nonAdmins db).map (fun v => v.id)).Nodup :=
    List.Nodup.sublist (List.Sublist.map _ (List.filter_sublist db.users)) hids
  have hids' : ((List.insertionSort rankLE (nonAdmins db)).map (fun v => v.id)).Nodup :=
    (List.Perm.nodup_iff (List.Perm.map _ hperm)).mpr hna_ids
  have hca' : (List.insertionSort rankLE (nonAdmins db)).Pairwise
      (fun a b => a.created_at ≠ b.created_at) :=
    (List.Perm.pairwise_iff (fun h => Ne.symm h) hperm).mpr hca
  have humem : u ∈ List.insertionSort rankLE (nonAdmins db) := by
    rw [List.mem_insertionSort]
    exact List.mem_filter.mpr ⟨hu, by simp [hna]⟩
  rw [rowNumbers_find u _ 1 hsorted hca' hids' humem]
  have hcount : (List.insertionSort rankLE (nonAdmins db)).countP
      (fun v => decide (ltUser v u)) = (nonAdmins db).countP (fun v => decide (ltUser v u)) :=
    List.Perm.countP_eq _ hperm
  rw [hcount]
  unfold competitorsAhead
  rw [List.countP_eq_length_filter]

theorem map_ids_of_preserve {l : List User} {g : User → User}
    (h : ∀ u, (g u).id = u.id) :
    (l.map g).map (fun v => v.id) = l.map (fun v => v.id) := by
  rw [List.map_map]
  exact List.map_congr_left (fun a _ => h a)

theorem find?_id_map {l : List User} (g : User → User)
    (h : ∀ u, (g u).id = u.id) (uid : Nat) :
    (l.map g).find? (fun v => v.id = uid) =
      (l.find? (fun v => v.id = uid)).map g := by
  rw [List.find?_map]
  have hp : ((fun v => decide (v.id = uid)) ∘ g) = (fun v : User => decide (v.id = uid)) := by
    funext u
    simp [Function.comp, h]
  rw [hp]

theorem nonAdmins_setActives (f : Nat → Bool) (db : DB) :
    nonAdmins (setActives f db) = (nonAdmins db).map (setActive f) := by
  unfold nonAdmins setActives
  rw [List.filter_map]
  rfl

theorem insertionSort_map_setActive (f : Nat → Bool) (l : List User) :
    List.insertionSort rankLE (l.map (setActive f)) =
      (List.insertionSort rankLE l).map (setActive f) :=
  (List.map_insertionSort rankLE rankLE (setActive f) l
    (fun _ _ _ _ => Iff.rfl)).symm

theorem rowNumbers_map_id (g : User → User) (h : ∀ u, (g u).id = u.id) :
    ∀ (n : Nat) (l : List User), rowNumbers n (l.map g) = rowNumbers n l := by
  intro n l
  induction l generalizing n with
  | nil => rfl
  | cons u t ih =>
    simp only [List.map_cons, rowNumbers, h, ih]

theorem lbRows_map_setActive (f : Nat → Bool) :
    ∀ (base : Nat) (l : List User),
      lbRows base (l.map (setActive f)) = lbRows base l := by
  intro base l
  induction l generalizing base with
  | nil => rfl
  | cons u t ih =>
    simp only [List.map_cons, lbRows, ih]
    rfl

theorem lbRows_rank :
    ∀ (l : List User) (base i : Nat) (h : i < (lbRows base l).length),
      ((lbRows base l).get ⟨i, h⟩).rank = base + i := by
  intro l
  induction l with
  | nil =>
    intro base i h
    simp [lbRows] at h
  | cons u t ih =>
    intro base i h
    cases i with
    | zero => rfl
    | succ j =>
      simp only [lbRows, List.get_cons_succ]
      rw [ih (base + 1) j]
      omega

theorem calculate_dynamic_rank_setActives (f : Nat → Bool) (db : DB) (uid : Nat) :
    calculate_dynamic_rank (setActives f db) uid = calculate_dynamic_rank db uid := by
  have hrow : rowNumberRank (setActives f db) uid = rowNumberRank db uid := by
    unfold rowNumberRank
    rw [nonAdmins_setActives, insertionSort_map_setActive,
      rowNumbers_map_id (setActive f) (fun u => rfl)]
  unfold calculate_dynamic_rank
  have hfind : (setActives f db).users.find? (fun v => v.id = uid) =
      (db.users.find? (fun v => v.id = uid)).map (setActive f) :=
    find?_id_map (setActive f) (fun u => rfl) uid
  rw [hfind, hrow]
  cases db.users.find? (fun v => v.id = uid) with
  | none => rfl
  | some u => rfl

theorem update_all_ranks_setActives (f : Nat → Bool) (db : DB) :
    update_all_ranks (setActives f db) = setActives f (update_all_ranks db) := by
  unfold update_all_ranks
  have hranked : rowNumbers 1 (List.insertionSort rankLE (nonAdmins (setActives f db))) =
      rowNumbers 1 (List.insertionSort rankLE (nonAdmins db)) := by
    rw [nonAdmins_setActives, insertionSort_map_setActive,
      rowNumbers_map_id (setActive f) (fun u => rfl)]
  rw [hranked]
  show ({ setActives f db with users := _ } : DB) = setActives f { db with users := _ }
  unfold setActives
  simp only [List.map_map]
  congr 1
  apply List.map_congr_left
  intro u _
  by_cases hadm : u.is_admin = true
  · simp [Function.comp, bulkRankUpdate, setActive, hadm]
  · have hadm' : u.is_admin = false := by
      cases h : u.is_admin
      · rfl
      · exact absurd h hadm
    cases hfind : ((rowNumbers 1 (List.insertionSort rankLE (nonAdmins db))).find?
        (fun p => p.1 = u.id)).map (fun p => p.2) with
    | none => simp [Function.comp, bulkRankUpdate, setActive, hadm', hfind]
    | some rank => simp [Function.comp, bulkRankUpdate, setActive, hadm', hfind]

theorem computeLeaderboard_setActives (f : Nat → Bool) (db : DB) (page limit : Nat) :
    computeLeaderboard (setActives f db) page limit = computeLeaderboard db page limit := by
  unfold computeLeaderboard
  rw [nonAdmins_setActives, insertionSort_map_setActive, ← List.map_drop,
    ← List.map_take, lbRows_map_setActive]

/-! ### Claim C6 -/

/-- C6, counterexample: on a store with two non-admin users and no user with
id 99, `assign_default_rank` for the missing id 99 is indeed a no-op, but it
returns the non-admin user count 2, not the fallback rank 1 the claim states.
(The `return 1` in the source is the exception handler, not the missing-user
branch, which executes `return total_users`.) -/
theorem claim_C6_cex :
    assign_default_rank dbTwo 99 = (dbTwo, 2) ∧ (2 : Nat) ≠ 1 := by
  constructor
  · rfl
  · decide

/-- C6 (amended): if `assign_default_rank(user_id)` is called for a `user_id`
that does not exist in the store, the operation is a no-op (no user record is
modified) and it returns the current count of non-admin users (the freshly
computed default rank), not 1. -/
theorem claim_C6_amended (db : DB) (user_id : Nat)
    (h : ∀ u ∈ db.users, u.id ≠ user_id) :
    assign_default_rank db user_id = (db, countNonAdmins db) := by
  have hfind : db.users.find? (fun u => u.id = user_id) = none := by
    rw [List.find?_eq_none]
    intro u hu
    simpa using h u hu
  unfold assign_default_rank
  rw [hfind]

/-- C6 witness: the amended theorem applied to the concrete two-user store
and the absent id 77. -/
theorem claim_C6_witness :
    (∀ u ∈ dbTwo.users, u.id ≠ 77) ∧
      assign_default_rank dbTwo 77 = (dbTwo, countNonAdmins dbTwo) :=
  ⟨by decide, claim_C6_amended dbTwo 77 (by decide)⟩

/-! ### Claim C9 -/

/-- C9: when the cache-get raises (the outcome `CacheGet.raised`, caught by
the `try` in `get_leaderboard`), the function still returns the live-computed
leaderboard — the page slice of the non-admin users ordered by
(total_points DESC, created_at ASC) — and each row's rank equals
`(page-1)*limit + index + 1`. The cache failure is never propagated: the
returned value is exactly the live computation. (The cache-set step is also
wrapped in `try`/`except` and the already-built list is returned regardless,
so a set failure cannot affect the returned value.) -/
theorem claim_C9 (db : DB) (page limit : Nat) :
    get_leaderboard CacheGet.raised db page limit = computeLeaderboard db page limit ∧
    (∃ s, s.Perm (nonAdmins db) ∧ List.Sorted rankLE s ∧
      computeLeaderboard db page limit =
        lbRows ((page - 1) * limit + 1) ((s.drop ((page - 1) * limit)).take limit)) ∧
    ∀ i (h : i < (get_leaderboard CacheGet.raised db page limit).length),
      ((get_leaderboard CacheGet.raised db page limit).get ⟨i, h⟩).rank =
        (page - 1) * limit + i + 1 := by
  refine ⟨rfl, ⟨List.insertionSort rankLE (nonAdmins db),
    List.perm_insertionSort rankLE (nonAdmins db),
    List.sorted_insertionSort rankLE (nonAdmins db), rfl⟩, ?_⟩
  intro i h
  have hr := lbRows_rank
    (((List.insertionSort rankLE (nonAdmins db)).drop ((page - 1) * limit)).take limit)
    ((page - 1) * limit + 1) i h
  exact hr.trans (by omega)

/-! ### Claim C10 -/

/-- C10: every rank computation and the leaderboard ignore `is_active`.
Rewriting the `is_active` flag of every user (by an arbitrary function of the
user id) leaves `calculate_dynamic_rank` unchanged, commutes with
`update_all_ranks` (so a deactivated user is still ranked as a competitor and
receives the same `current_rank`), preserves the non-admin competitor count,
never touches `default_rank`, and leaves the result of `get_leaderboard`
unchanged for every cache outcome (so a deactivated non-admin user still
appears, in the same row). -/
theorem claim_C10 (db : DB) (f : Nat → Bool) (uid page limit : Nat) :
    calculate_dynamic_rank (setActives f db) uid = calculate_dynamic_rank db uid ∧
    update_all_ranks (setActives f db) = setActives f (update_all_ranks db) ∧
    countNonAdmins (setActives f db) = countNonAdmins db ∧
    (∀ u ∈ db.users, (setActive f u).default_rank = u.default_rank) ∧
    ∀ cg, get_leaderboard cg (setActives f db) page limit =
      get_leaderboard cg db page limit := by
  refine ⟨calculate_dynamic_rank_setActives f db uid,
    update_all_ranks_setActives f db, ?_, fun u _ => rfl, ?_⟩
  · unfold countNonAdmins
    rw [nonAdmins_setActives, List.length_map]
  · intro cg
    cases cg with
    | hit rows =>
      unfold get_leaderboard
      rw [computeLeaderboard_setActives]
    | miss => exact computeLeaderboard_setActives f db page limit
    | raised => exact computeLeaderboard_setActives f db page limit

/-! ### Claim C1 -/

/-- C1: for every existing non-admin user (with distinct ids, pairwise
distinct non-admin created_at values, and a stored positive default rank),
`calculate_dynamic_rank` returns the stored `default_rank` when
`total_points = 0`, and `1 + competitorsAhead` — one plus the count of
non-admin users with strictly more points, or equal points and strictly
earlier `created_at` — when `total_points > 0`. -/
theorem claim_C1 (db : DB) (u : User)
    (hids : (db.users.map (fun v => v.id)).Nodup)
    (hca : (nonAdmins db).Pairwise (fun a b => a.created_at ≠ b.created_at))
    (hu : u ∈ db.users) (hna : u.is_admin = false) :
    (∀ d, u.default_rank = some d → 0 < d → u.total_points = 0 →
      calculate_dynamic_rank db u.id = d) ∧
    (0 < u.total_points →
      calculate_dynamic_rank db u.id = 1 + competitorsAhead db u) := by
  have hfind : db.users.find? (fun v => v.id = u.id) = some u :=
    find?_id_of_mem hids hu
  constructor
  · intro d hd hdpos hzero
    unfold calculate_dynamic_rank
    rw [hfind]
    simp only [hzero, if_true, hd, pyOrRank, Option.getD_some]
    have hne : d ≠ 0 := by omega
    simp [hne]
  · intro hpos
    have hz : ¬ (u.total_points = 0) := by omega
    have hrank := rank_lookup db u hids hca hu hna
    unfold calculate_dynamic_rank rowNumberRank
    rw [hfind, hrank]
    simp [hz]

/-- C1 witness: the theorem applied to the concrete two-user store `dbTwo`
and its 1-point user. -/
theorem claim_C1_witness :
    (dbTwo.users.map (fun v => v.id)).Nodup ∧
    calculate_dynamic_rank dbTwo 1 =
      1 + competitorsAhead dbTwo (mkUser 1 1 (some 2) (some 2) 1) :=
  ⟨by decide,
   (claim_C1 dbTwo (mkUser 1 1 (some 2) (some 2) 1)
      (by decide) (by decide) (by decide) (by decide)).2 (by decide)⟩

theorem bulkRankUpdate_preserves (ranked : List (Nat × Nat)) (u : User) :
    (bulkRankUpdate ranked u).total_points = u.total_points ∧
    (bulkRankUpdate ranked u).created_at = u.created_at ∧
    (bulkRankUpdate ranked u).is_admin = u.is_admin ∧
    (bulkRankUpdate ranked u).id = u.id := by
  unfold bulkRankUpdate
  by_cases h : u.is_admin = true
  · rw [if_pos h]
    exact ⟨rfl, rfl, rfl, rfl⟩
  · rw [if_neg h]
    cases ((ranked.find? (fun p => p.1 = u.id)).map (fun p => p.2)) with
    | none => exact ⟨rfl, rfl, rfl, rfl⟩
    | some rank => exact ⟨rfl, rfl, rfl, rfl⟩

theorem bulkRankUpdate_rank_pos (ranked : List (Nat × Nat)) (u : User)
    (hna : u.is_admin = false) (hpos : 0 < u.total_points) {rank : Nat}
    (hf : (ranked.find? (fun p => p.1 = u.id)).map (fun p => p.2) = some rank) :
    (bulkRankUpdate ranked u).current_rank = some rank := by
  unfold bulkRankUpdate
  rw [if_neg (by simp [hna]), hf]
  have hz : ¬ (u.total_points = 0) := by omega
  simp [hz]

/-! ### Claim C2 -/

/-- C2, counterexample: in the reachable two-user state `dbTwo` (second user
has 1 point, first user has 0 points and default rank 1), `update_all_ranks`
gives both users `current_rank = 1`: the 1-point user does **not** get a
strictly smaller rank than the 0-point user, because zero-point users keep
their default rank — the anomaly the spec itself documents in its §8
scenario. So the claimed total order fails as stated. -/
theorem claim_C2_cex : ¬ totalOrderAfterBulk dbTwo := by
  unfold totalOrderAfterBulk
  decide

/-- C2 (amended): the total order holds between users who both have positive
points: after `update_all_ranks` (on a store with distinct ids and pairwise
distinct non-admin created_at values), for non-admin users A and B with
positive points, points(A) > points(B) implies rank(A) < rank(B), and on
equal points the earlier-registered user has the strictly smaller rank.
(Zero-point users keep their default rank and are exempt, as the spec's §8
scenario itself requires.) -/
theorem claim_C2_amended (db : DB)
    (hids : (db.users.map (fun v => v.id)).Nodup)
    (hca : (nonAdmins db).Pairwise (fun a b => a.created_at ≠ b.created_at)) :
    ∀ a ∈ (update_all_ranks db).users, ∀ b ∈ (update_all_ranks db).users,
      a.is_admin = false → b.is_admin = false →
      0 < a.total_points → 0 < b.total_points →
      ∀ ra rb, a.current_rank = some ra → b.current_rank = some rb →
        (b.total_points < a.total_points → ra < rb) ∧
        (a.total_points = b.total_points → a.created_at < b.created_at → ra < rb) := by
  intro a ha b hb hana hbna hapos hbpos ra rb hra hrb
  have ha' : a ∈ db.users.map
      (bulkRankUpdate (rowNumbers 1 (List.insertionSort rankLE (nonAdmins db)))) := ha
  have hb' : b ∈ db.users.map
      (bulkRankUpdate (rowNumbers 1 (List.insertionSort rankLE (nonAdmins db)))) := hb
  obtain ⟨a0, ha0m, ha0e⟩ := List.mem_map.mp ha'
  obtain ⟨b0, hb0m, hb0e⟩ := List.mem_map.mp hb'
  obtain ⟨hap, hac, haa, _⟩ := bulkRankUpdate_preserves
    (rowNumbers 1 (List.insertionSort rankLE (nonAdmins db))) a0
  obtain ⟨hbp, hbc, hba, _⟩ := bulkRankUpdate_preserves
    (rowNumbers 1 (List.insertionSort rankLE (nonAdmins db))) b0
  rw [ha0e] at hap hac haa
  rw [hb0e] at hbp hbc hba
  have ha0na : a0.is_admin = false := by rw [← haa]; exact hana
  have hb0na : b0.is_admin = false := by rw [← hba]; exact hbna
  have ha0pos : 0 < a0.total_points := by rw [← hap]; exact hapos
  have hb0pos : 0 < b0.total_points := by rw [← hbp]; exact hbpos
  have hfa := rank_lookup db a0 hids hca ha0m ha0na
  have hfb := rank_lookup db b0 hids hca hb0m hb0na
  have hfa' : ((rowNumbers 1 (List.insertionSort rankLE (nonAdmins db))).find?
      (fun p => p.1 = a0.id)).map (fun p => p.2) = some (1 + competitorsAhead db a0) := by
    rw [hfa]
    rfl
  have hfb' : ((rowNumbers 1 (List.insertionSort rankLE (nonAdmins db))).find?
      (fun p => p.1 = b0.id)).map (fun p => p.2) = some (1 + competitorsAhead db b0) := by
    rw [hfb]
    rfl
  have hacur : a.current_rank = some (1 + competitorsAhead db a0) := by
    rw [← ha0e]
    exact bulkRankUpdate_rank_pos _ a0 ha0na ha0pos hfa'
  have hbcur : b.current_rank = some (1 + competitorsAhead db b0) := by
    rw [← hb0e]
    exact bulkRankUpdate_rank_pos _ b0 hb0na hb0pos hfb'
  have hra' : ra = 1 + competitorsAhead db a0 :=
    Option.some.inj (hra.symm.trans hacur)
  have hrb' : rb = 1 + competitorsAhead db b0 :=
    Option.some.inj (hrb.symm.trans hbcur)
  have key : ltUser a0 b0 → ra < rb := by
    intro hlt
    have ha0mem : a0 ∈ nonAdmins db :=
      List.mem_filter.mpr ⟨ha0m, by simp [ha0na]⟩
    have hcnt : (nonAdmins db).countP (fun v => decide (ltUser v a0)) <
        (nonAdmins db).countP (fun v => decide (ltUser v b0)) := by
      apply countP_lt_countP ha0mem
      · intro x _ hpx
        rw [decide_eq_true_eq] at hpx ⊢
        exact ltUser_trans hpx hlt
      · exact decide_eq_true hlt
      · exact decide_eq_false (ltUser_irrefl a0)
    have h1 : competitorsAhead db a0 =
        (nonAdmins db).countP (fun v => decide (ltUser v a0)) := by
      unfold competitorsAhead
      rw [List.countP_eq_length_filter]
    have h2 : competitorsAhead db b0 =
        (nonAdmins db).countP (fun v => decide (ltUser v b0)) := by
      unfold competitorsAhead
      rw [List.countP_eq_length_filter]
    omega
  constructor
  · intro hblt
    apply key
    exact Or.inl (by rw [← hbp, ← hap]; exact hblt)
  · intro heq hlt
    apply key
    exact Or.inr ⟨by rw [← hap, ← hbp]; exact heq,
      by rw [← hac, ← hbc]; exact hlt⟩

/-- C2 witness: the amended theorem applied to the two-user store `dbTwoPos`
where both users have positive points (3 and 1): the 3-point earlier user
gets rank 1, the 1-point user rank 2. -/
theorem claim_C2_witness :
    (dbTwoPos.users.map (fun v => v.id)).Nodup ∧
    (((mkUser 1 1 (some 2) (some 2) 1).total_points <
        (mkUser 0 3 (some 1) (some 1) 0).total_points → (1 : Nat) < 2) ∧
     ((mkUser 0 3 (some 1) (some 1) 0).total_points =
        (mkUser 1 1 (some 2) (some 2) 1).total_points →
      (mkUser 0 3 (some 1) (some 1) 0).created_at <
        (mkUser 1 1 (some 2) (some 2) 1).created_at → (1 : Nat) < 2)) :=
  ⟨by decide,
   claim_C2_amended dbTwoPos (by decide) (by decide)
     (mkUser 0 3 (some 1) (some 1) 0) (by decide)
     (mkUser 1 1 (some 2) (some 2) 1) (by decide)
     rfl rfl (by decide) (by decide) 1 2 rfl rfl⟩

theorem PLATFORM_POINTS_pos (platform : Platform) : 0 < PLATFORM_POINTS platform := by
  cases platform <;> decide

theorem pyOrRank_of_pos {x : Option Nat} (h : 0 < x.getD 0) (y : Nat) :
    some (pyOrRank x y) = x := by
  cases x with
  | none => simp at h
  | some d =>
    have hd : d ≠ 0 := by simpa using Nat.pos_iff_ne_zero.mp h
    simp [pyOrRank, hd]

theorem find?_update_of_id {l : List User} {u : User} {user_id : Nat}
    (g : User → User) (hg : ∀ v, (g v).id = v.id)
    (hfind : l.find? (fun v => v.id = user_id) = some u) :
    (l.map (fun v => if v.id = user_id then g v else v)).find?
      (fun v => v.id = user_id) = some (if u.id = user_id then g u else u) := by
  have hg' : ∀ v : User, ((if v.id = user_id then g v else v) : User).id = v.id := by
    intro v
    by_cases h : v.id = user_id
    · rw [if_pos h]
      exact hg v
    · rw [if_neg h]
  rw [find?_id_map _ hg' user_id, hfind]
  rfl

theorem update_user_rank_eq (db : DB) (user_id : Nat) {u : User}
    (hfind : db.users.find? (fun v => v.id = user_id) = some u) :
    (update_user_rank db user_id).1 =
      { db with users := db.users.map (fun v =>
          if v.id = user_id then
            { v with current_rank := some (calculate_dynamic_rank db user_id) }
          else v) } := by
  unfold update_user_rank
  rw [hfind]

theorem update_user_rank_missing (db : DB) (user_id : Nat)
    (hfind : db.users.find? (fun v => v.id = user_id) = none) :
    (update_user_rank db user_id).1 = db := by
  unfold update_user_rank
  rw [hfind]

theorem log_share_fresh (db : DB) (u : User) (user_id : Nat) (platform : Platform)
    (now : Nat)
    (hfind : db.users.find? (fun v => v.id = user_id) = some u)
    (hno : db.shares.find?
      (fun s => decide (s.user_id = user_id ∧ s.platform = platform)) = none) :
    log_share_event db user_id platform now = Except.ok
      { db := (update_user_rank (shareInsert db user_id platform now) user_id).1,
        event := some (newShare db user_id platform now),
        user := { u with
          total_points := u.total_points + PLATFORM_POINTS platform,
          shares_count := u.shares_count + 1,
          current_rank := some (calculate_dynamic_rank
            (shareInsert db user_id platform now) user_id) },
        points := PLATFORM_POINTS platform } ∧
    (update_user_rank (shareInsert db user_id platform now) user_id).1.shares =
      db.shares ++ [newShare db user_id platform now] ∧
    (update_user_rank (shareInsert db user_id platform now) user_id).1.users.find?
      (fun v => v.id = user_id) = some { u with
        total_points := u.total_points + PLATFORM_POINTS platform,
        shares_count := u.shares_count + 1,
        current_rank := some (calculate_dynamic_rank
          (shareInsert db user_id platform now) user_id) } := by
  have hid : u.id = user_id := by simpa using List.find?_some hfind
  have hf1 : (shareInsert db user_id platform now).users.find?
      (fun v => v.id = user_id) = some { u with
        total_points := u.total_points + PLATFORM_POINTS platform,
        shares_count := u.shares_count + 1 } := by
    have h := find?_update_of_id
      (fun v => { v with total_points := v.total_points + PLATFORM_POINTS platform,
                         shares_count := v.shares_count + 1 })
      (fun v => rfl) hfind
    rw [if_pos hid] at h
    exact h
  have hupd := update_user_rank_eq (shareInsert db user_id platform now) user_id hf1
  have hf2 : (update_user_rank (shareInsert db user_id platform now) user_id).1.users.find?
      (fun v => v.id = user_id) = some { u with
        total_points := u.total_points + PLATFORM_POINTS platform,
        shares_count := u.shares_count + 1,
        current_rank := some (calculate_dynamic_rank
          (shareInsert db user_id platform now) user_id) } := by
    rw [hupd]
    have h := find?_update_of_id
      (fun v => { v with current_rank := some (calculate_dynamic_rank
        (shareInsert db user_id platform now) user_id) })
      (fun v => rfl) hf1
    rw [if_pos hid] at h
    exact h
  refine ⟨?_, ?_, hf2⟩
  · unfold log_share_event
    rw [hfind, hno, hf2]
  · rw [hupd]
    rfl

/-! ### Claim C7 -/

/-- C7: for an existing user with no prior `ShareEvent` on the platform,
`log_share_event` succeeds, creates exactly one matching `ShareEvent` (the
appended `newShare` row, whose `points_earned` is the fixed platform constant
twitter=1, instagram=2, facebook=3, linkedin=5), increments the user row's
`total_points` by exactly that constant and `shares_count` by exactly 1, and
returns that constant as the points awarded. -/
theorem claim_C7 (db : DB) (u : User) (user_id : Nat) (platform : Platform) (now : Nat)
    (hfind : db.users.find? (fun v => v.id = user_id) = some u)
    (hno : db.shares.find?
      (fun s => decide (s.user_id = user_id ∧ s.platform = platform)) = none) :
    ∃ o : ShareOutcome,
      log_share_event db user_id platform now = Except.ok o ∧
      o.points = PLATFORM_POINTS platform ∧
      0 < PLATFORM_POINTS platform ∧
      o.event = some (newShare db user_id platform now) ∧
      (newShare db user_id platform now).points_earned = PLATFORM_POINTS platform ∧
      o.db.shares = db.shares ++ [newShare db user_id platform now] ∧
      o.db.shares.countP
        (fun s => decide (s.user_id = user_id ∧ s.platform = platform)) = 1 ∧
      o.user.total_points = u.total_points + PLATFORM_POINTS platform ∧
      o.user.shares_count = u.shares_count + 1 := by
  obtain ⟨h1, h2, _⟩ := log_share_fresh db u user_id platform now hfind hno
  refine ⟨_, h1, rfl, PLATFORM_POINTS_pos platform, rfl, rfl, h2, ?_, rfl, rfl⟩
  rw [h2, List.countP_append]
  have h0 : db.shares.countP
      (fun s => decide (s.user_id = user_id ∧ s.platform = platform)) = 0 := by
    rw [List.countP_eq_zero]
    exact List.find?_eq_none.mp hno
  rw [h0]
  simp [List.countP_cons, newShare]

/-- C7 witness: the theorem applied to the fresh two-user store, user 0,
twitter. -/
theorem claim_C7_witness :
    dbFresh.shares.find?
      (fun s => decide (s.user_id = 0 ∧ s.platform = Platform.twitter)) = none ∧
    ∃ o : ShareOutcome,
      log_share_event dbFresh 0 Platform.twitter 10 = Except.ok o ∧
      o.points = PLATFORM_POINTS Platform.twitter ∧
      0 < PLATFORM_POINTS Platform.twitter ∧
      o.event = some (newShare dbFresh 0 Platform.twitter 10) ∧
      (newShare dbFresh 0 Platform.twitter 10).points_earned =
        PLATFORM_POINTS Platform.twitter ∧
      o.db.shares = dbFresh.shares ++ [newShare dbFresh 0 Platform.twitter 10] ∧
      o.db.shares.countP
        (fun s => decide (s.user_id = 0 ∧ s.platform = Platform.twitter)) = 1 ∧
      o.user.total_points =
        (mkUser 0 0 (some 1) (some 1) 0).total_points + PLATFORM_POINTS Platform.twitter ∧
      o.user.shares_count = (mkUser 0 0 (some 1) (some 1) 0).shares_count + 1 :=
  ⟨by decide,
   claim_C7 dbFresh (mkUser 0 0 (some 1) (some 1) 0) 0 Platform.twitter 10
     (by decide) (by decide)⟩

/-! ### Claim C3 -/

/-- C3, counterexample: for a user who has already shared on the platform
before the two calls (store `dbShared`, user 1, twitter), both consecutive
calls return 0 points, so positive points are awarded zero times, not
"exactly once" as the claim states for every user and platform. -/
theorem claim_C3_cex :
    awardsExactlyOnce dbShared 1 Platform.twitter = false ∧
    pointsOfCalls dbShared 1 Platform.twitter = some (0, 0) := by
  decide

/-- C3 (amended): for an existing user with **no prior ShareEvent** on the
platform, calling `log_share_event` twice in sequence awards positive points
exactly once: the first call creates the event and returns the positive
platform points; the second call returns success with no new share event,
0 points, the identical user row (so `total_points` and `shares_count` are
unchanged), and the identical database state. -/
theorem claim_C3_amended (db : DB) (u : User) (user_id : Nat) (platform : Platform)
    (now1 now2 : Nat)
    (hfind : db.users.find? (fun v => v.id = user_id) = some u)
    (hno : db.shares.find?
      (fun s => decide (s.user_id = user_id ∧ s.platform = platform)) = none) :
    ∃ db2 u2,
      log_share_event db user_id platform now1 = Except.ok
        { db := db2, event := some (newShare db user_id platform now1),
          user := u2, points := PLATFORM_POINTS platform } ∧
      0 < PLATFORM_POINTS platform ∧
      log_share_event db2 user_id platform now2 = Except.ok
        { db := db2, event := none, user := u2, points := 0 } := by
  obtain ⟨h1, h2, h3⟩ := log_share_fresh db u user_id platform now1 hfind hno
  refine ⟨_, _, h1, PLATFORM_POINTS_pos platform, ?_⟩
  have hdup : (update_user_rank (shareInsert db user_id platform now1) user_id).1.shares.find?
      (fun s => decide (s.user_id = user_id ∧ s.platform = platform)) =
      some (newShare db user_id platform now1) := by
    rw [h2, List.find?_append, hno]
    simp [newShare]
  unfold log_share_event
  rw [h3, hdup]

/-- C3 witness: the amended theorem applied to the fresh two-user store,
user 0, twitter. -/
theorem claim_C3_witness :
    dbFresh.shares.find?
      (fun s => decide (s.user_id = 0 ∧ s.platform = Platform.twitter)) = none ∧
    ∃ db2 u2,
      log_share_event dbFresh 0 Platform.twitter 10 = Except.ok
        { db := db2, event := some (newShare dbFresh 0 Platform.twitter 10),
          user := u2, points := PLATFORM_POINTS Platform.twitter } ∧
      0 < PLATFORM_POINTS Platform.twitter ∧
      log_share_event db2 0 Platform.twitter 11 = Except.ok
        { db := db2, event := none, user := u2, points := 0 } :=
  ⟨by decide,
   claim_C3_amended dbFresh (mkUser 0 0 (some 1) (some 1) 0) 0 Platform.twitter 10 11
     (by decide) (by decide)⟩

theorem assign_default_rank_inv (db : DB) (user_id : Nat)
    (hinv : ZeroPointInv db) :
    ZeroPointInv (assign_default_rank db user_id).1 := by
  cases hfind : db.users.find? (fun v => v.id = user_id) with
  | none =>
    have he : (assign_default_rank db user_id).1 = db := by
      unfold assign_default_rank
      rw [hfind]
    rw [he]
    exact hinv
  | some u =>
    have he : (assign_default_rank db user_id).1 =
        { db with users := db.users.map (fun v =>
            if v.id = user_id then
              { v with default_rank := some (countNonAdmins db),
                       current_rank := some (countNonAdmins db) }
            else v) } := by
      unfold assign_default_rank
      rw [hfind]
    rw [he]
    intro w hw hna hzero
    obtain ⟨v, hvm, hve⟩ := List.mem_map.mp hw
    by_cases hvid : v.id = user_id
    · rw [if_pos hvid] at hve
      subst hve
      rfl
    · rw [if_neg hvid] at hve
      subst hve
      exact hinv v hvm hna hzero

theorem update_user_rank_inv (db : DB) (user_id : Nat)
    (hids : (db.users.map (fun v => v.id)).Nodup)
    (hinv : ZeroPointInv db) (hwf : RanksWF db) :
    ZeroPointInv (update_user_rank db user_id).1 := by
  cases hfind : db.users.find? (fun v => v.id = user_id) with
  | none =>
    rw [update_user_rank_missing db user_id hfind]
    exact hinv
  | some u =>
    rw [update_user_rank_eq db user_id hfind]
    intro w hw hna hzero
    obtain ⟨v, hvm, hve⟩ := List.mem_map.mp hw
    by_cases hvid : v.id = user_id
    · rw [if_pos hvid] at hve
      subst hve
      have hu_mem : u ∈ db.users := List.mem_of_find?_eq_some hfind
      have hu_id : u.id = user_id := by simpa using List.find?_some hfind
      have hvu : v = u := mem_id_eq hids hvm hu_mem (by rw [hvid, hu_id])
      have hvna : v.is_admin = false := hna
      have hvzero : v.total_points = 0 := hzero
      have huna : u.is_admin = false := by rw [← hvu]; exact hvna
      have huzero : u.total_points = 0 := by rw [← hvu]; exact hvzero
      have hcalc : calculate_dynamic_rank db user_id = pyOrRank u.default_rank 1 := by
        unfold calculate_dynamic_rank
        rw [hfind]
        simp [huzero]
      show some (calculate_dynamic_rank db user_id) = v.default_rank
      rw [hcalc, hvu]
      exact pyOrRank_of_pos (hwf u hu_mem huna) 1
    · rw [if_neg hvid] at hve
      subst hve
      exact hinv v hvm hna hzero

theorem update_all_ranks_inv (db : DB)
    (hinv : ZeroPointInv db) (hwf : RanksWF db) :
    ZeroPointInv (update_all_ranks db) := by
  intro w hw hna hzero
  have hw' : w ∈ db.users.map
      (bulkRankUpdate (rowNumbers 1 (List.insertionSort rankLE (nonAdmins db)))) := hw
  obtain ⟨v, hvm, hve⟩ := List.mem_map.mp hw'
  obtain ⟨hp, _, ha, _⟩ := bulkRankUpdate_preserves
    (rowNumbers 1 (List.insertionSort rankLE (nonAdmins db))) v
  rw [hve] at hp ha
  have hvna : v.is_admin = false := by rw [← ha]; exact hna
  have hvzero : v.total_points = 0 := by rw [← hp]; exact hzero
  rw [← hve]
  unfold bulkRankUpdate
  rw [if_neg (by simp [hvna])]
  cases hf : ((rowNumbers 1 (List.insertionSort rankLE (nonAdmins db))).find?
      (fun p => p.1 = v.id)).map (fun p => p.2) with
  | none => exact hinv v hvm hvna hvzero
  | some rank =>
    show some (if v.total_points = 0 then pyOrRank v.default_rank rank else rank) =
      v.default_rank
    rw [if_pos hvzero]
    exact pyOrRank_of_pos (hwf v hvm hvna) rank

theorem shareInsert_inv (db : DB) (user_id : Nat) (platform : Platform) (now : Nat)
    (hinv : ZeroPointInv db) :
    ZeroPointInv (shareInsert db user_id platform now) := by
  intro w hw hna hzero
  obtain ⟨v, hvm, hve⟩ := List.mem_map.mp hw
  by_cases hvid : v.id = user_id
  · rw [if_pos hvid] at hve
    subst hve
    exfalso
    have hpos := PLATFORM_POINTS_pos platform
    have h0 : v.total_points + PLATFORM_POINTS platform = 0 := hzero
    omega
  · rw [if_neg hvid] at hve
    subst hve
    exact hinv v hvm hna hzero

theorem shareInsert_wf (db : DB) (user_id : Nat) (platform : Platform) (now : Nat)
    (hwf : RanksWF db) :
    RanksWF (shareInsert db user_id platform now) := by
  intro w hw hna
  obtain ⟨v, hvm, hve⟩ := List.mem_map.mp hw
  by_cases hvid : v.id = user_id
  · rw [if_pos hvid] at hve
    subst hve
    exact hwf v hvm hna
  · rw [if_neg hvid] at hve
    subst hve
    exact hwf v hvm hna

theorem if_update_id (user_id : Nat) (g : User → User) (hg : ∀ v, (g v).id = v.id)
    (v : User) : ((if v.id = user_id then g v else v) : User).id = v.id := by
  by_cases h : v.id = user_id
  · rw [if_pos h]
    exact hg v
  · rw [if_neg h]

theorem shareInsert_ids (db : DB) (user_id : Nat) (platform : Platform) (now : Nat)
    (hids : (db.users.map (fun v => v.id)).Nodup) :
    ((shareInsert db user_id platform now).users.map (fun v => v.id)).Nodup := by
  show ((db.users.map (fun v =>
    if v.id = user_id then
      { v with total_points := v.total_points + PLATFORM_POINTS platform,
               shares_count := v.shares_count + 1 }
    else v)).map (fun v => v.id)).Nodup
  rw [map_ids_of_preserve (if_update_id user_id
    (fun v => { v with total_points := v.total_points + PLATFORM_POINTS platform,
                       shares_count := v.shares_count + 1 })
    (fun v => rfl))]
  exact hids

theorem log_share_event_inv (db : DB) (user_id : Nat) (platform : Platform) (now : Nat)
    (o : ShareOutcome)
    (hids : (db.users.map (fun v => v.id)).Nodup)
    (hinv : ZeroPointInv db) (hwf : RanksWF db)
    (h : log_share_event db user_id platform now = Except.ok o) :
    ZeroPointInv o.db := by
  cases hfind : db.users.find? (fun v => v.id = user_id) with
  | none =>
    unfold log_share_event at h
    rw [hfind] at h
    simp at h
  | some u =>
    cases hdup : db.shares.find?
        (fun s => decide (s.user_id = user_id ∧ s.platform = platform)) with
    | some s =>
      unfold log_share_event at h
      rw [hfind, hdup] at h
      have ho := Except.ok.inj h
      rw [← ho]
      exact hinv
    | none =>
      obtain ⟨h1, _, _⟩ := log_share_fresh db u user_id platform now hfind hdup
      rw [h1] at h
      have ho := Except.ok.inj h
      rw [← ho]
      show ZeroPointInv (update_user_rank (shareInsert db user_id platform now) user_id).1
      exact update_user_rank_inv (shareInsert db user_id platform now) user_id
        (shareInsert_ids db user_id platform now hids)
        (shareInsert_inv db user_id platform now hinv)
        (shareInsert_wf db user_id platform now hwf)

/-! ### Claim C4 -/

/-- C4: on a store with distinct ids where every non-admin user carries a
positive stored default rank (`RanksWF`, what the registration flow
establishes), the zero-point invariant — every non-admin user with
`total_points = 0` has `current_rank = default_rank` — is preserved by
`assign_default_rank`, `update_user_rank`, `update_all_ranks`, and every
successful `log_share_event` (`record_share`), for any target user, platform,
and time. -/
theorem claim_C4 (db : DB)
    (hids : (db.users.map (fun v => v.id)).Nodup)
    (hinv : ZeroPointInv db) (hwf : RanksWF db) :
    (∀ user_id, ZeroPointInv (assign_default_rank db user_id).1) ∧
    (∀ user_id, ZeroPointInv (update_user_rank db user_id).1) ∧
    ZeroPointInv (update_all_ranks db) ∧
    ∀ user_id platform now o,
      log_share_event db user_id platform now = Except.ok o → ZeroPointInv o.db :=
  ⟨fun user_id => assign_default_rank_inv db user_id hinv,
   fun user_id => update_user_rank_inv db user_id hids hinv hwf,
   update_all_ranks_inv db hinv hwf,
   fun user_id platform now o h =>
     log_share_event_inv db user_id platform now o hids hinv hwf h⟩

/-- C4 witness: the theorem applied to the two-user store `dbTwo` (which
satisfies the invariant), keeping its bulk-recompute conjunct. -/
theorem claim_C4_witness :
    ZeroPointInv dbTwo ∧ ZeroPointInv (update_all_ranks dbTwo) :=
  ⟨by unfold ZeroPointInv; decide,
   (claim_C4 dbTwo (by decide) (by unfold ZeroPointInv; decide)
     (by unfold RanksWF; decide)).2.2.1⟩

/-! ### Claim C8 -/

/-- C8, counterexample: in the reachable state `dbGap` (a zero-point user at
current rank 1 via the default-rank rule, a 3-point user at current rank 2),
`get_user_rank_info` for the rank-2 user returns `points_to_next_rank = 0`,
while the claimed formula — points of the rank-1 user minus own points plus
one — evaluates to -2: the code clamps the gap at 0 with `max(0, ...)`, which
the claim omits. The claim also fails for every rank-1 user: there the
next-rank filter receives the literal int 0 and the function returns the
error dict rather than `points_to_next_rank = 0`. -/
theorem claim_C8_cex :
    (get_user_rank_info dbGap 2).map (fun i => i.points_to_next_rank) = some 0 ∧
    (dbGap.users.find?
        (fun v => decide (v.is_admin = false ∧ v.current_rank = some 1))).map
      (fun v => (v.total_points : Int) - (3 : Int) + 1) = some (-2) ∧
    get_user_rank_info dbGap 1 = none := by
  decide

/-- C8 (amended): for an existing user whose `current_rank` is NULL, 0, or 1,
`get_user_rank_info` returns the error dict (the conditional expression in
the next-rank filter binds below `==`, so the literal int 0 reaches
`filter()`, SQLAlchemy raises `ArgumentError`, and the `except` handler
returns the error dict) — in particular a rank-1 user gets no
`points_to_next_rank` at all. For an existing user with
`current_rank = r > 1`, rank info is returned and `points_to_next_rank` is
`max 0 (points(next) - points(user) + 1)` where `next` is the first user row
with `is_admin = false` and `current_rank = r - 1`, and 0 when no such row
exists. -/
theorem claim_C8_amended (db : DB) (user_id : Nat) (u : User)
    (hfind : db.users.find? (fun v => v.id = user_id) = some u) :
    ((u.current_rank = none ∨ u.current_rank = some 0 ∨ u.current_rank = some 1) →
      get_user_rank_info db user_id = none) ∧
    (∀ r, u.current_rank = some r → 1 < r →
      ∃ info, get_user_rank_info db user_id = some info ∧
        (∀ nru, db.users.find?
            (fun v => decide (v.is_admin = false ∧ v.current_rank = some (r - 1))) =
              some nru →
          info.points_to_next_rank =
            max 0 ((nru.total_points : Int) - (u.total_points : Int) + 1)) ∧
        (db.users.find?
            (fun v => decide (v.is_admin = false ∧ v.current_rank = some (r - 1))) =
              none →
          info.points_to_next_rank = 0)) := by
  constructor
  · intro hlow
    have hguard : nextRankGuard u = false := by
      unfold nextRankGuard truthy
      rcases hlow with h | h | h <;> rw [h] <;> rfl
    unfold get_user_rank_info
    rw [hfind]
    simp [hguard]
  · intro r hr h1r
    have hguard : nextRankGuard u = true := by
      unfold nextRankGuard truthy
      rw [hr]
      simp only [Option.getD_some, Bool.and_eq_true, decide_eq_true_eq]
      exact ⟨by omega, h1r⟩
    have hcrit : (fun v : User => decide (v.is_admin = false ∧
        v.current_rank = some (u.current_rank.getD 0 - 1))) =
        (fun v : User => decide (v.is_admin = false ∧
          v.current_rank = some (r - 1))) := by
      rw [hr]
      rfl
    have heq : get_user_rank_info db user_id = some
        { user_id := u.id, name := u.name,
          total_points := u.total_points,
          default_rank := u.default_rank,
          current_rank := u.current_rank,
          rank_improvement := rankImprovement u,
          points_to_next_rank := pointsToNextRank db u,
          total_users := countNonAdmins db } := by
      unfold get_user_rank_info
      rw [hfind]
      simp [hguard]
    refine ⟨_, heq, ?_, ?_⟩
    · intro nru hnru
      show pointsToNextRank db u =
        max 0 ((nru.total_points : Int) - (u.total_points : Int) + 1)
      unfold pointsToNextRank nextRankUser
      rw [hcrit, hnru]
    · intro hnone
      show pointsToNextRank db u = 0
      unfold pointsToNextRank nextRankUser
      rw [hcrit, hnone]

/-- C8 witness: the amended theorem applied to `dbGap` — its rank-1
zero-point user gets the error dict, and its rank-2 user gets rank info
whose `points_to_next_rank` is the clamped gap. -/
theorem claim_C8_witness :
    dbGap.users.find? (fun v => v.id = 2) = some (mkUser 2 3 (some 2) (some 2) 1) ∧
    ∃ info, get_user_rank_info dbGap 2 = some info ∧
      (∀ nru, dbGap.users.find?
          (fun v => decide (v.is_admin = false ∧ v.current_rank = some (2 - 1))) =
            some nru →
        info.points_to_next_rank =
          max 0 ((nru.total_points : Int) -
            (((mkUser 2 3 (some 2) (some 2) 1).total_points : Nat) : Int) + 1)) ∧
      (dbGap.users.find?
          (fun v => decide (v.is_admin = false ∧ v.current_rank = some (2 - 1))) =
            none →
        info.points_to_next_rank = 0) :=
  ⟨by decide,
   (claim_C8_amended dbGap 2 (mkUser 2 3 (some 2) (some 2) 1) (by decide)).2
     2 rfl (by decide)⟩

theorem create_user_step (db : DB) (emails : List Nat) (inp : UserCreate) (now : Nat)
    (hinv : SeqInv db emails) (hfresh : inp.email ∉ emails) :
    ∃ db1, create_user db inp false now = Except.ok (db1, db.nextUserId) ∧
      SeqInv db1 (emails ++ [inp.email]) := by
  obtain ⟨hnext, hlen, hget⟩ := hinv
  have hmem : ∀ v ∈ db.users, v.id < db.users.length ∧ v.is_admin = false ∧
      v.email ∈ emails := by
    intro v hv
    obtain ⟨j, hj, hvg⟩ := List.mem_iff_getElem.mp hv
    obtain ⟨h1, h2, _, _, h5⟩ := hget j hj
    rw [hvg] at h1 h2 h5
    exact ⟨by rw [h1]; exact hj, h2, h5⟩
  have hfind : db.users.find? (fun u => u.email = inp.email) = none := by
    rw [List.find?_eq_none]
    intro v hv
    simp only [decide_eq_true_eq]
    intro he
    have hv' := (hmem v hv).2.2
    rw [he] at hv'
    exact hfresh hv'
  have hfindid : (insertRegistrant db inp false now).users.find?
      (fun u => u.id = db.nextUserId) = some (newRegistrant db inp false now) := by
    show (db.users ++ [newRegistrant db inp false now]).find?
      (fun u => u.id = db.nextUserId) = _
    rw [List.find?_append]
    have h1 : db.users.find? (fun u => u.id = db.nextUserId) = none := by
      rw [List.find?_eq_none]
      intro v hv
      simp only [decide_eq_true_eq]
      have := (hmem v hv).1
      intro he
      omega
    rw [h1, Option.none_or]
    exact List.find?_cons_of_pos _ (by simp [newRegistrant])
  have hcount : countNonAdmins (insertRegistrant db inp false now) =
      db.users.length + 1 := by
    unfold countNonAdmins nonAdmins
    show ((db.users ++ [newRegistrant db inp false now]).filter
      (fun u => decide (u.is_admin = false))).length = _
    have hall : ∀ a ∈ db.users ++ [newRegistrant db inp false now],
        (decide (a.is_admin = false)) = true := by
      intro a ha
      rcases List.mem_append.mp ha with h | h
      · simp [(hmem a h).2.1]
      · rw [List.mem_singleton.mp h]
        simp [newRegistrant]
    rw [List.filter_eq_self.mpr hall, List.length_append]
    rfl
  have hmap : (db.users ++ [newRegistrant db inp false now]).map (fun v =>
      if v.id = db.nextUserId then
        { v with default_rank := some (db.users.length + 1),
                 current_rank := some (db.users.length + 1) }
      else v) =
      db.users ++ [{ (newRegistrant db inp false now) with
        default_rank := some (db.users.length + 1),
        current_rank := some (db.users.length + 1) }] := by
    rw [List.map_append]
    congr 1
    · have h' : ∀ v ∈ db.users, (if v.id = db.nextUserId then
          ({ v with default_rank := some (db.users.length + 1),
                    current_rank := some (db.users.length + 1) } : User)
        else v) = id v := by
        intro v hv
        have := (hmem v hv).1
        rw [if_neg (by omega)]
        rfl
      exact (List.map_congr_left h').trans (List.map_id db.users)
    · show [if (newRegistrant db inp false now).id = db.nextUserId then _ else _] = _
      rw [if_pos (show (newRegistrant db inp false now).id = db.nextUserId from rfl)]
  have hdb1 : (assign_default_rank (insertRegistrant db inp false now)
        db.nextUserId).1 =
      { db with
        users := db.users ++ [{ (newRegistrant db inp false now) with
          default_rank := some (db.users.length + 1),
          current_rank := some (db.users.length + 1) }],
        nextUserId := db.nextUserId + 1 } := by
    have hassign : (assign_default_rank (insertRegistrant db inp false now)
          db.nextUserId).1 =
        { db with
          users := (db.users ++ [newRegistrant db inp false now]).map (fun v =>
            if v.id = db.nextUserId then
              { v with default_rank := some (db.users.length + 1),
                       current_rank := some (db.users.length + 1) }
            else v),
          nextUserId := db.nextUserId + 1 } := by
      unfold assign_default_rank
      rw [hfindid, hcount]
      rfl
    rw [hassign, hmap]
  refine ⟨{ db with
      users := db.users ++ [{ (newRegistrant db inp false now) with
        default_rank := some (db.users.length + 1),
        current_rank := some (db.users.length + 1) }],
      nextUserId := db.nextUserId + 1 }, ?_, ?_, ?_, ?_⟩
  · unfold create_user
    rw [hfind]
    show Except.ok ((assign_default_rank (insertRegistrant db inp false now)
      db.nextUserId).1, db.nextUserId) = _
    rw [hdb1]
  · show ({ db with
        users := db.users ++ [{ (newRegistrant db inp false now) with
          default_rank := some (db.users.length + 1),
          current_rank := some (db.users.length + 1) }],
        nextUserId := db.nextUserId + 1 } : DB).nextUserId =
      (emails ++ [inp.email]).length
    show db.nextUserId + 1 = (emails ++ [inp.email]).length
    rw [List.length_append]
    simp [hnext]
  · show (db.users ++ [{ (newRegistrant db inp false now) with
        default_rank := some (db.users.length + 1),
        current_rank := some (db.users.length + 1) }]).length =
      (emails ++ [inp.email]).length
    rw [List.length_append, List.length_append]
    simp [hlen]
  · intro j hj
    have hjlt : j < (db.users ++ [{ (newRegistrant db inp false now) with
        default_rank := some (db.users.length + 1),
        current_rank := some (db.users.length + 1) }]).length := hj
    have hjlen : j < db.users.length + 1 := by
      rw [List.length_append] at hjlt
      simpa using hjlt
    by_cases hjl : j < db.users.length
    · have hval : (db.users ++ [{ (newRegistrant db inp false now) with
          default_rank := some (db.users.length + 1),
          current_rank := some (db.users.length + 1) }])[j] =
          db.users[j] := List.getElem_append_left hjl
      rw [hval]
      obtain ⟨h1, h2, h3, h4, h5⟩ := hget j hjl
      exact ⟨h1, h2, h3, h4, List.mem_append.mpr (Or.inl h5)⟩
    · have hj_eq : j = db.users.length := by omega
      have hval : (db.users ++ [{ (newRegistrant db inp false now) with
          default_rank := some (db.users.length + 1),
          current_rank := some (db.users.length + 1) }])[j] =
          { (newRegistrant db inp false now) with
            default_rank := some (db.users.length + 1),
            current_rank := some (db.users.length + 1) } :=
        List.getElem_concat_length db.users _ j hj_eq hjlt
      rw [hval]
      refine ⟨?_, rfl, ?_, ?_, ?_⟩
      · show db.nextUserId = j
        omega
      · show some (db.users.length + 1) = some (j + 1)
        rw [hj_eq]
      · show some (db.users.length + 1) = some (j + 1)
        rw [hj_eq]
      · show inp.email ∈ emails ++ [inp.email]
        exact List.mem_append.mpr (Or.inr (List.mem_singleton.mpr rfl))

theorem create_users_seq_inv (inputs : List (UserCreate × Nat)) :
    ∀ (db : DB) (emails : List Nat), SeqInv db emails →
    (∀ p ∈ inputs, p.1.email ∉ emails) →
    (inputs.map (fun p => p.1.email)).Nodup →
    ∃ db', create_users_seq db inputs = Except.ok db' ∧
      SeqInv db' (emails ++ inputs.map (fun p => p.1.email)) := by
  induction inputs with
  | nil =>
    intro db emails hinv _ _
    exact ⟨db, rfl, by simpa using hinv⟩
  | cons p rest ih =>
    obtain ⟨inp, tnow⟩ := p
    intro db emails hinv hfresh hnd
    rw [List.map_cons, List.nodup_cons] at hnd
    obtain ⟨db1, hcreate, hinv1⟩ :=
      create_user_step db emails inp tnow hinv (hfresh _ (List.mem_cons_self _ _))
    have hfresh1 : ∀ q ∈ rest, q.1.email ∉ emails ++ [inp.email] := by
      intro q hq hmemq
      rcases List.mem_append.mp hmemq with h | h
      · exact hfresh q (List.mem_cons_of_mem _ hq) h
      · have heq : q.1.email = inp.email := List.mem_singleton.mp h
        have hm : q.1.email ∈ List.map (fun z : UserCreate × Nat => z.1.email) rest :=
          List.mem_map_of_mem _ hq
        rw [heq] at hm
        exact hnd.1 hm
    obtain ⟨db', hrest, hinv'⟩ := ih db1 (emails ++ [inp.email]) hinv1 hfresh1 hnd.2
    refine ⟨db', ?_, ?_⟩
    · show create_users_seq db ((inp, tnow) :: rest) = Except.ok db'
      unfold create_users_seq
      rw [hcreate]
      exact hrest
    · rw [List.map_cons, List.append_cons]
      exact hinv'

/-! ### Claim C5 -/

/-- C5: for any list of sequential non-admin registrations with pairwise
distinct emails into an empty store, `create_users_seq` succeeds and the k-th
registrant (0-indexed position j = k-1) ends with
`default_rank = current_rank = some (j+1)` — the default ranks are exactly
1..N in creation order; and a user created with `is_admin = true` is inserted
with `default_rank = none` (and `current_rank = none`): admins never receive
a default rank. -/
theorem claim_C5 :
    (∀ (inputs : List (UserCreate × Nat)),
      (inputs.map (fun p => p.1.email)).Nodup →
      ∃ db', create_users_seq emptyDB inputs = Except.ok db' ∧
        db'.users.length = inputs.length ∧
        ∀ j (h : j < db'.users.length),
          (db'.users[j]).default_rank = some (j + 1) ∧
          (db'.users[j]).current_rank = some (j + 1)) ∧
    (∀ (db : DB) (inp : UserCreate) (now : Nat) (db1 : DB) (uid : Nat),
      create_user db inp true now = Except.ok (db1, uid) →
      ∃ u, db1.users = db.users ++ [u] ∧ u.default_rank = none ∧
        u.current_rank = none ∧ u.is_admin = true) := by
  constructor
  · intro inputs hnd
    have h0 : SeqInv emptyDB [] := by
      refine ⟨rfl, rfl, ?_⟩
      intro j h
      simp [emptyDB] at h
    obtain ⟨db', hrun, hinv⟩ :=
      create_users_seq_inv inputs emptyDB [] h0 (by simp) hnd
    refine ⟨db', hrun, ?_, ?_⟩
    · have := hinv.2.1
      simpa using this
    · intro j hj
      obtain ⟨_, _, h3, h4, _⟩ := hinv.2.2 j hj
      exact ⟨h3, h4⟩
  · intro db inp now db1 uid h
    cases hfind : db.users.find? (fun u => u.email = inp.email) with
    | some v =>
      unfold create_user at h
      rw [hfind] at h
      simp at h
    | none =>
      unfold create_user at h
      rw [hfind] at h
      have h' := Except.ok.inj h
      refine ⟨newRegistrant db inp true now, ?_, rfl, rfl, rfl⟩
      have hu := congrArg (fun p : DB × Nat => p.1.users) h'
      exact hu.symm

/-- C5 witness: two sequential non-admin registrations from the empty store
get default ranks 1 and 2. -/
theorem claim_C5_witness :
    (([((⟨"a", 0, "p"⟩ : UserCreate), 0), ((⟨"b", 1, "p"⟩ : UserCreate), 1)].map
        (fun p => p.1.email)).Nodup) ∧
    ∃ db', create_users_seq emptyDB
        [((⟨"a", 0, "p"⟩ : UserCreate), 0), ((⟨"b", 1, "p"⟩ : UserCreate), 1)] =
          Except.ok db' ∧
      db'.users.length = 2 ∧
      ∀ j (h : j < db'.users.length),
        (db'.users[j]).default_rank = some (j + 1) ∧
        (db'.users[j]).current_rank = some (j + 1) :=
  ⟨by decide,
   claim_C5.1 [((⟨"a", 0, "p"⟩ : UserCreate), 0), ((⟨"b", 1, "p"⟩ : UserCreate), 1)]
     (by decide)⟩
